import Mathlib

/-!
Shallow embedding of the slabspec spectral-synthesis module
(`slabspec/slabspec.py`): the two spectral convolvers, the synthesiser's
upper-vibrational-state selection, wavelength-grid construction and
optical-depth accumulation, and the rotation-diagram builder.

Modelling conventions: machine floats are modelled as real numbers (exact
arithmetic); IEEE non-finite flux samples (NaN or Inf) are modelled as
`none : Option ℝ`; Python exceptions escaping a routine are modelled with
`Except`.  The `helpers` module of the repository is not part of the
sources, so its two functions used here (`fwhm_to_sigma`, `markgauss`) are
modelled from the specification and marked as such.
-/

namespace Slabspec

noncomputable section

/-- Constant `astropy.constants.c.value` (speed of light, m/s). -/
def cval : ℝ := 299792458

/-- Constant `astropy.constants.h.value` (Planck constant, J s). -/
def hval : ℝ := 6.62607015e-34

/-- Constant `astropy.constants.k_B.value` (Boltzmann constant, J/K). -/
def kBval : ℝ := 1.380649e-23

/-- Constant `astropy.constants.pc.value` (parsec, m). -/
def pcval : ℝ := 3.0856775814913673e16

/-- Value of `np.min` on a nonempty array (`np.min` of an empty array
raises; the empty case here returns a junk 0). -/
def npMin : List ℝ → ℝ
  | [] => 0
  | x :: xs => xs.foldl min x

/-- Value of `np.max` on a nonempty array. -/
def npMax : List ℝ → ℝ
  | [] => 0
  | x :: xs => xs.foldl max x

/-- Value of `np.median`: sort, then take the middle element (odd length)
or the mean of the two middle elements (even length). -/
def npMedian (l : List ℝ) : ℝ :=
  let s := l.insertionSort (· ≤ ·)
  if l.length % 2 = 1 then s.getD (l.length / 2) 0
  else (s.getD (l.length / 2 - 1) 0 + s.getD (l.length / 2) 0) / 2

/-- Value of `np.round` on a scalar: round half to even. -/
def npRound (x : ℝ) : ℤ :=
  if Int.fract x = 1 / 2 then (if Even ⌊x⌋ then ⌊x⌋ else ⌊x⌋ + 1) else round x

/-- Value of Python `int()` on a float: truncation toward zero. -/
def pyInt (x : ℝ) : ℤ := if 0 ≤ x then ⌊x⌋ else ⌈x⌉

/-- Value of `np.arange(a, b, d)`: `⌈(b − a)/d⌉` points starting at `a`
with step `d`. -/
def npArange (a b d : ℝ) : List ℝ :=
  (List.range (⌈(b - a) / d⌉.toNat)).map (fun k : ℕ => a + k * d)

/-- Value of `np.cumsum`. -/
def npCumsum (l : List ℝ) : List ℝ :=
  (List.range l.length).map (fun k : ℕ => (l.take (k + 1)).sum)

/-- Value of `np.interp` at one query point, over a list of (x, y) knots:
constant extrapolation outside the knot range, linear interpolation inside
(knots assumed increasing, as in the source's uses). -/
def npInterpP (x : ℝ) : List (ℝ × ℝ) → ℝ
  | [] => 0
  | (x0, y0) :: rest =>
    match rest with
    | [] => y0
    | (x1, y1) :: _ =>
      if x ≤ x0 then y0
      else if x ≤ x1 then y0 + (y1 - y0) * (x - x0) / (x1 - x0)
      else npInterpP x rest

/-- Value of `np.interp(x, xp, fp)` at one query point. -/
def npInterp (x : ℝ) (xp fp : List ℝ) : ℝ := npInterpP x (xp.zip fp)

/-- Modelled from the spec: `fwhm_to_sigma` from the repository's missing
`helpers` module converts a Gaussian FWHM to a sigma by dividing by the
standard factor 2.3548. -/
def fwhm_to_sigma (f : ℝ) : ℝ := f / 2.3548

/-- Modelled from the spec: `markgauss` from the repository's missing
`helpers` module evaluates a Gaussian of the given mean, sigma and total
area on a velocity grid. -/
def markgauss (vel : List ℝ) (mean sigma area : ℝ) : List ℝ :=
  vel.map (fun v =>
    area / (sigma * Real.sqrt (2 * Real.pi)) *
      Real.exp (-((v - mean) ^ 2) / (2 * sigma ^ 2)))

/-- Half-window size `n` of `spec_convol_colette` (source lines 116-118),
taking the already-converted sigma `dv`; the float `n` of the source is
integer-valued, so it is kept as a natural number. -/
def colette_n (wave : List ℝ) (dv : ℝ) : ℕ :=
  let r := npRound (4 * dv / (cval * 1e-3) * npMedian wave /
    (wave.getD 1 0 - wave.getD 0 0))
  if r < 10 then 10 else r.toNat

/-- Grid step `dwave = wave[1] - wave[0]` of `spec_convol_colette`. -/
def colette_dwave (wave : List ℝ) : ℝ := wave.getD 1 0 - wave.getD 0 0

/-- Low-side padding wavelengths of `spec_convol_colette` (source line 122):
`np.arange(wave[0]-dwave*n, wave[0]-dwave, dwave)`. -/
def colette_wave_low (wave : List ℝ) (n : ℕ) : List ℝ :=
  npArange (wave.getD 0 0 - colette_dwave wave * n)
    (wave.getD 0 0 - colette_dwave wave) (colette_dwave wave)

/-- High-side padding wavelengths of `spec_convol_colette` (source line 123):
`np.arange(max(wave)+dwave, max(wave)+dwave*(n-1), dwave)`. -/
def colette_wave_high (wave : List ℝ) (n : ℕ) : List ℝ :=
  npArange (npMax wave + colette_dwave wave)
    (npMax wave + colette_dwave wave * ((n : ℝ) - 1)) (colette_dwave wave)

/-- Boolean-mask indexing `arr[mask == 1]`. -/
def maskStrip (arr : List (Option ℝ)) (mask : List ℝ) : List (Option ℝ) :=
  (arr.zip mask).filterMap (fun p => if p.2 = 1 then some p.1 else none)

/-- Value of `np.nansum` on a flux array: non-finite samples count as 0. -/
def nansumO (l : List (Option ℝ)) : ℝ := (l.map (fun o => o.getD 0)).sum

/-- Body of the windowed-convolution loop of `spec_convol_colette` (source
lines 141-152), updating sample `i` of the running array `nf`.  The output
sample is the NaN-aware weighted mean; a zero normalisation denominator
gives an IEEE non-finite value, modelled as `none`. -/
def colette_step (waveP : List ℝ) (fluxP : List (Option ℝ)) (dv : ℝ) (n : ℕ)
    (nf : List (Option ℝ)) (i : ℕ) : List (Option ℝ) :=
  let lwave := (waveP.drop (i - n)).take (2 * n + 1)
  let lflux := (fluxP.drop (i - n)).take (2 * n + 1)
  let wi := waveP.getD i 0
  let lvel := lwave.map (fun w => (w - wi) / wi * cval * 1e-3)
  let nvel := (npMax lvel - npMin lvel) / (dv * 0.2) + 3
  let vel0 := (List.range ⌈nvel⌉.toNat).map (fun k : ℕ => (k : ℝ))
  let vel := vel0.map (fun v => 0.2 * dv * (v - npMedian vel0))
  let kernel := markgauss vel 0 dv 1
  let wkernel0 := lvel.map (fun x => npInterp x vel kernel)
  let wkernel := wkernel0.map (fun x => x / wkernel0.sum)
  let num := nansumO (List.zipWith (fun f k => f.map (· * k)) lflux wkernel)
  let den := ((lflux.zip wkernel).filterMap
    (fun p => if p.1.isSome then some p.2 else none)).sum
  nf.set i (if den = 0 then none else some (num / den))

/-- Padded wavelength array of `spec_convol_colette` (source line 131). -/
def colette_waveP (wave : List ℝ) (n : ℕ) : List ℝ :=
  colette_wave_low wave n ++ wave ++ colette_wave_high wave n

/-- Padded flux array of `spec_convol_colette` (source lines 126-132):
zero-flux padding on both ends. -/
def colette_fluxP (wave : List ℝ) (flux : List (Option ℝ)) (n : ℕ) :
    List (Option ℝ) :=
  List.replicate (colette_wave_low wave n).length (some (0 : ℝ)) ++ flux ++
    List.replicate (colette_wave_high wave n).length (some (0 : ℝ))

/-- Original-versus-padding mask of `spec_convol_colette` (source lines
128-133): 0 on padding, 1 on the original samples. -/
def colette_mask (wave : List ℝ) (n : ℕ) : List ℝ :=
  List.replicate (colette_wave_low wave n).length (0 : ℝ) ++
    List.replicate wave.length 1 ++
    List.replicate (colette_wave_high wave n).length 0

/-- Windowed-convolution loop of `spec_convol_colette` (source lines
135-152): `newflux` starts as a copy of the padded flux and sample `i` is
recomputed for `i` in `np.arange(n, size-n+1)`. -/
def colette_loop (wave : List ℝ) (flux : List (Option ℝ)) (dv : ℝ) (n : ℕ) :
    List (Option ℝ) :=
  (List.range' n (((colette_waveP wave n).length + 1) - n - n)).foldl
    (colette_step (colette_waveP wave n) (colette_fluxP wave flux n) dv n)
    (colette_fluxP wave flux n)

/-- Embedding of `spec_convol_colette` (source lines 94-161): fixed-FWHM
windowed convolver.  Pads both ends, runs the windowed loop over the
original samples, forces non-finite input samples back to non-finite
(source lines 154-156), and strips the padding with the mask (line 159). -/
def spec_convol_colette (wave : List ℝ) (flux : List (Option ℝ)) (dv0 : ℝ) :
    List (Option ℝ) :=
  let dv := fwhm_to_sigma dv0
  let n := colette_n wave dv
  maskStrip
    (List.zipWith (fun f v => if f.isSome then v else none)
      (colette_fluxP wave flux n) (colette_loop wave flux dv n))
    (colette_mask wave n)

/-- Value of `np.roll(wave, 1)`: rotate right by one. -/
def npRoll1 (l : List ℝ) : List ℝ :=
  match l.getLast? with
  | none => []
  | some x => x :: l.dropLast

/-- Spacings `np.abs(wave - np.roll(wave, 1))` of `spec_convol`. -/
def spec_dws (wave : List ℝ) : List ℝ :=
  List.zipWith (fun a b => |a - b|) wave (npRoll1 wave)

/-- Minimum native wavelength spacing `dw_min` of `spec_convol`. -/
def spec_dw_min (wave : List ℝ) : ℝ := npMin (spec_dws wave)

/-- Wavelength-dependent resolution width `fwhm = wave / R` of
`spec_convol`, with `R = c / (dv * 1e3)`. -/
def spec_fwhm (wave : List ℝ) (dv : ℝ) : List ℝ :=
  wave.map (fun w => w / (cval / (dv * 1e3)))

/-- Nyquist-clamped samples-per-FWHM scalar of `spec_convol` (source lines
45-48): `np.max([2., np.min(fwhm / dw_min)])`. -/
def spec_fwhm_s (wave : List ℝ) (dv : ℝ) : ℝ :=
  max 2 (npMin ((spec_fwhm wave dv).map (fun f => f / spec_dw_min wave)))

/-- Models the external `astropy.convolution.convolve_fft` with a
`Gaussian1DKernel`: discrete convolution with a unit-normalised Gaussian
sampled at integer offsets within four sigma of centre, with zero fill
beyond the array ends (`boundary='fill'`). -/
def convolve_fft (flux : List ℝ) (sigma : ℝ) : List ℝ :=
  let half := (⌈4 * sigma⌉).toNat
  let offs := (List.range (2 * half + 1)).map (fun j : ℕ => (j : ℤ) - (half : ℤ))
  let wts := offs.map (fun j => Real.exp (-((j : ℝ) ^ 2) / (2 * sigma ^ 2)))
  (List.range flux.length).map (fun i : ℕ =>
    ((offs.zip wts).map (fun p =>
      (if 0 ≤ (i : ℤ) + p.1 then flux.getD ((i : ℤ) + p.1).toNat 0 else 0) *
        p.2)).sum / wts.sum)

/-- Embedding of `spec_convol` (source lines 16-91): resolving-power
convolver.  Builds the constant-sampling grid by cumulative summation,
resamples, convolves, and resamples back onto the input grid. -/
def spec_convol (wave flux : List ℝ) (dv : ℝ) : List ℝ :=
  let fwhm_s := spec_fwhm_s wave dv
  let ds := (spec_fwhm wave dv).map (fun f => f / fwhm_s)
  let wave_constfwhm := (npCumsum ds).map (fun s => s + npMin wave)
  let flux_constfwhm := wave_constfwhm.map (fun w => npInterp w wave flux)
  let sigma_s := fwhm_s / 2.3548
  let flux_conv := convolve_fft flux_constfwhm sigma_s
  wave.map (fun w => npInterp w wave_constfwhm flux_conv)

/-- One retrieved HITRAN transition row, with the fields `make_spec` uses. -/
structure HitranRow where
  wn : ℝ
  a : ℝ
  elower : ℝ
  gp : ℝ
  eup_k : ℝ
  Vp : String

/-- Integer value of a digit character. -/
def digitVal (c : Char) : ℤ := (c.toNat : ℤ) - 48

/-- Value of a nonempty all-digit character run, else `none`. -/
def parseDigits (ds : List Char) : Option ℤ :=
  match ds with
  | [] => none
  | _ =>
    if ds.all (fun c => c.isDigit) then
      some (ds.foldl (fun acc c => acc * 10 + digitVal c) 0)
    else none

/-- Value of Python `int()` applied to a string label (surrounding spaces
stripped, optional sign, decimal digits): `none` models a `ValueError`. -/
def pyParseInt (s : String) : Option ℤ :=
  match ((s.data.dropWhile (fun c => c = ' ')).reverse.dropWhile
      (fun c => c = ' ')).reverse with
  | '-' :: ds => (parseDigits ds).map (fun v => -v)
  | '+' :: ds => parseDigits ds
  | ds => parseDigits ds

/-- Embedding of the vup-selection block of `make_spec` (source lines
229-238).  The first label is test-parsed; a failure there skips the filter
(with a printed diagnostic) and proceeds unfiltered.  Otherwise every label
is parsed (an unparsable later label raises) and the rows whose parsed
label equals 1 are kept — the literal `1` is what the source compares
against. -/
def make_spec_selectVup (vup : Option ℤ) (rows : List HitranRow) :
    Except String (List HitranRow) :=
  match vup with
  | none => Except.ok rows
  | some _ =>
    match rows with
    | [] => Except.error "IndexError"
    | r0 :: _ =>
      match pyParseInt r0.Vp with
      | none => Except.ok rows
      | some _ =>
        match rows.mapM (fun r => pyParseInt r.Vp) with
        | none => Except.error "ValueError"
        | some vals =>
          Except.ok ((rows.zip vals).filterMap
            (fun p => if p.2 = 1 then some p.1 else none))

/-- Velocity grid of `make_spec` (source lines 258-260):
`dvel * (np.arange(0, nvel) - (nvel-1)/2)` with `dvel = deltav/3` and
`nvel = 31`. -/
def velGrid (deltav : ℝ) : List ℝ :=
  (List.range 31).map (fun k : ℕ => deltav / 3 * ((k : ℝ) - 15))

/-- Peak optical depth `tau0` of one transition (source lines 250-256). -/
def make_spec_tau0 (n_col temp deltav q : ℝ) (l : HitranRow) : ℝ :=
  let wn0 := l.wn * 1e2
  let afactor := l.a * l.gp * n_col / (q * 8 * Real.pi * wn0 ^ 3)
  let efactor1 := l.elower * 1e2 * hval * cval / kBval / temp
  let efactor2 := l.eup_k / temp
  let phia := 1 / (deltav * Real.sqrt (2 * Real.pi))
  afactor * (Real.exp (-efactor1) - Real.exp (-efactor2)) * phia

/-- Per-transition optical-depth profile over the velocity grid (source
line 270). -/
def lineTau (n_col temp deltav q : ℝ) (l : HitranRow) : List ℝ :=
  (velGrid deltav).map (fun v =>
    make_spec_tau0 n_col temp deltav q l * Real.exp (-(v ^ 2) / (2 * deltav ^ 2)))

/-- Per-transition wavelength array over the velocity grid (source line
271): `1e6/wn0 * (1 + vel/c)`. -/
def lineWave (deltav : ℝ) (l : HitranRow) : List ℝ :=
  (velGrid deltav).map (fun v => 1e6 / (l.wn * 1e2) * (1 + v / cval))

/-- Shared-grid point count of `make_spec` (source line 276):
`int(oversamp * wmax/(wmax-wmin) * (c/deltav))` with `oversamp = 3`. -/
def nbins (wmin wmax deltav : ℝ) : ℕ :=
  (pyInt (3 * wmax / (wmax - wmin) * (cval / deltav))).toNat

/-- Shared output wavelength grid of `make_spec` (source line 279):
`np.logspace(np.log10(wmin), np.log10(wmax), nbins)`. -/
def totalwave (wmin wmax deltav : ℝ) : List ℝ :=
  (List.range (nbins wmin wmax deltav)).map (fun k : ℕ =>
    (10 : ℝ) ^ (Real.logb 10 wmin + (k : ℝ) *
      ((Real.logb 10 wmax - Real.logb 10 wmin) /
        ((nbins wmin wmax deltav : ℝ) - 1))))

/-- Models evaluation of `scipy.interpolate.interp1d(totalwave,
totalwave_index)`: linear interpolation that raises a `ValueError` when the
query lies outside the knot range (`bounds_error` defaults to true). -/
def interp1dEval (xp fp : List ℝ) (x : ℝ) : Except String ℝ :=
  if x < xp.headD 0 ∨ xp.getLastD 0 < x then
    Except.error "ValueError: x_new out of range"
  else Except.ok (npInterp x xp fp)

/-- Solid angle `omega = area / (d_pc * pc)²` (source line 262). -/
def make_spec_omega (area d_pc : ℝ) : ℝ := area / (d_pc * pcval) ^ 2

/-- Scalar line flux of one transition (source lines 298-299): the summed
Planck-with-absorption profile integrated over velocity. -/
def make_spec_lineflux (temp deltav area d_pc : ℝ) (l : HitranRow)
    (tl : List ℝ) : ℝ :=
  let wn0 := l.wn * 1e2
  let wnfactor := hval * cval * wn0 / (kBval * temp)
  let f_arr := tl.map (fun t =>
    2 * hval * cval * wn0 ^ 3 / (Real.exp wnfactor - 1) *
      (1 - Real.exp (-t)) * make_spec_omega area d_pc)
  f_arr.sum * (deltav / 3 / cval) * (cval * wn0)

/-- One iteration of the accumulation loop of `make_spec` (source lines
286-299): locate the transition's index window on the shared grid by
inverse interpolation (which raises if the window leaves the grid), add
the interpolated optical-depth profile into the running total, and record
the scalar line flux. -/
def make_spec_line_step (tw idx : List ℝ) (deltav n_col temp q area d_pc : ℝ)
    (acc : List ℝ × List ℝ) (l : HitranRow) :
    Except String (List ℝ × List ℝ) := do
  let wl := lineWave deltav l
  let tl := lineTau n_col temp deltav q l
  let mi ← interp1dEval tw idx (npMin wl)
  let ma ← interp1dEval tw idx (npMax wl)
  let minindex := (pyInt mi).toNat
  let maxindex := (pyInt ma).toNat
  let w := List.range' minindex (maxindex - minindex)
  if 0 < w.length then
    Except.ok
      (w.foldl (fun tt j => tt.set j (tt.getD j 0 + npInterp (tw.getD j 0) wl tl))
        acc.1,
       acc.2 ++ [make_spec_lineflux temp deltav area d_pc l tl])
  else Except.ok (acc.1, acc.2 ++ [0])

/-- Embedding of the accumulation loop of `make_spec` (source lines
280-299), over all retrieved transitions.  Returns (total optical depth,
line fluxes); an index-interpolation failure aborts the run. -/
def make_spec_accumulate (wmin wmax deltav n_col temp q area d_pc : ℝ)
    (lines : List HitranRow) : Except String (List ℝ × List ℝ) :=
  let tw := totalwave wmin wmax deltav
  let idx := (List.range tw.length).map (fun k : ℕ => (k : ℝ))
  lines.foldlM (make_spec_line_step tw idx deltav n_col temp q area d_pc)
    (List.replicate tw.length 0, [])

/-- One row of the line-parameter table consumed by
`make_rotation_diagram` (the HITRAN columns plus the computed line flux). -/
structure LineParamRow where
  eup_k : ℝ
  lineflux : ℝ
  wn : ℝ
  gp : ℝ
  a : ℝ

/-- Embedding of `make_rotation_diagram` (source lines 405-425): one (x, y)
pair per line, `x = eup_k`, `y = log(lineflux / (wn * gp * a))`.  The
transform is total: a zero denominator is not trapped (the source lets the
IEEE division produce a non-finite value; the real-number model produces
the corresponding junk value). -/
def make_rotation_diagram (lineparams : List LineParamRow) : List (ℝ × ℝ) :=
  lineparams.map (fun l =>
    (l.eup_k, Real.log (l.lineflux / (l.wn * l.gp * l.a))))

/-! Helper lemmas. -/

lemma foldl_min_of_chain :
    ∀ (xs : List ℝ) (x : ℝ), List.Chain' (· ≤ ·) (x :: xs) → xs.foldl min x = x
  | [], _, _ => rfl
  | y :: ys, x, h => by
    have h1 : x ≤ y := (List.chain'_cons.mp h).1
    have h2 : List.Chain' (· ≤ ·) (y :: ys) := (List.chain'_cons.mp h).2
    have h3 : List.Chain' (· ≤ ·) (x :: ys) := by
      cases ys with
      | nil => simp
      | cons z zs =>
        exact List.chain'_cons.mpr
          ⟨le_trans h1 (List.chain'_cons.mp h2).1, (List.chain'_cons.mp h2).2⟩
    calc (y :: ys).foldl min x = ys.foldl min (min x y) := rfl
    _ = ys.foldl min x := by rw [min_eq_left h1]
    _ = x := foldl_min_of_chain ys x h3

lemma npMin_of_chain (l : List ℝ) (hne : l ≠ []) (hc : List.Chain' (· ≤ ·) l) :
    npMin l = l.headD 0 := by
  cases l with
  | nil => exact absurd rfl hne
  | cons x xs => exact foldl_min_of_chain xs x hc

lemma chain'_map_range {α : Type} {R : α → α → Prop} (f : ℕ → α) (n : ℕ)
    (hf : ∀ k, R (f k) (f (k + 1))) : List.Chain' R ((List.range n).map f) := by
  rw [List.chain'_map]
  cases n with
  | zero => simp
  | succ m => exact (List.chain'_range_succ _ m).mpr (fun k _ => hf k)

lemma headD_range_map (f : ℕ → ℝ) (n : ℕ) (d : ℝ) (h : 0 < n) :
    ((List.range n).map f).headD d = f 0 := by
  cases n with
  | zero => exact absurd h (lt_irrefl 0)
  | succ m => rw [List.range_succ_eq_map]; simp

lemma getLastD_range_map (f : ℕ → ℝ) (n : ℕ) (d : ℝ) (h : 0 < n) :
    ((List.range n).map f).getLastD d = f (n - 1) := by
  cases n with
  | zero => exact absurd h (lt_irrefl 0)
  | succ m =>
    rw [List.range_succ, List.map_append, List.map_singleton,
      List.getLastD_concat]
    simp

lemma zipWith_isSome_self :
    ∀ l : List (Option ℝ),
      List.zipWith (fun f v => if f.isSome then v else none) l l = l := by
  intro l
  induction l with
  | nil => rfl
  | cons o t ih =>
    rw [List.zipWith_cons_cons, ih]
    cases o <;> rfl

lemma maskStrip_append {u1 u2 : List (Option ℝ)} {m1 m2 : List ℝ}
    (h : u1.length = m1.length) :
    maskStrip (u1 ++ u2) (m1 ++ m2) = maskStrip u1 m1 ++ maskStrip u2 m2 := by
  unfold maskStrip
  rw [List.zip_append h, List.filterMap_append]

lemma maskStrip_rep_zero (u : List (Option ℝ)) (k : ℕ) :
    maskStrip u (List.replicate k (0 : ℝ)) = [] := by
  induction u generalizing k with
  | nil => simp [maskStrip]
  | cons a t ih =>
    cases k with
    | zero => simp [maskStrip]
    | succ m =>
      simp only [maskStrip, List.replicate_succ, List.zip_cons_cons,
        List.filterMap_cons]
      rw [if_neg (by norm_num)]
      exact ih m

lemma maskStrip_rep_one :
    ∀ (u : List (Option ℝ)) (k : ℕ), u.length = k →
      maskStrip u (List.replicate k (1 : ℝ)) = u := by
  intro u
  induction u with
  | nil => intro k h; simp [maskStrip]
  | cons a t ih =>
    intro k h
    cases k with
    | zero => exact absurd h (by simp)
    | succ m =>
      have ht := ih m (by simpa using h)
      simp only [maskStrip] at ht ⊢
      simp [List.replicate_succ, List.zip_cons_cons, List.filterMap_cons, ht]

lemma maskStrip_middle (u : List (Option ℝ)) (a b c : ℕ)
    (h : u.length = a + b + c) :
    maskStrip u (List.replicate a (0 : ℝ) ++ List.replicate b 1 ++
      List.replicate c 0) = (u.drop a).take b := by
  rw [List.append_assoc]
  conv_lhs => rw [← List.take_append_drop a u]
  rw [maskStrip_append (by rw [List.length_take, List.length_replicate]; omega)]
  rw [maskStrip_rep_zero]
  conv_lhs => rw [← List.take_append_drop b (u.drop a)]
  rw [maskStrip_append
    (by rw [List.length_take, List.length_replicate, List.length_drop]; omega)]
  rw [maskStrip_rep_one _ b
    (by rw [List.length_take, List.length_drop]; omega)]
  rw [maskStrip_rep_zero]
  simp

lemma colette_step_length (waveP : List ℝ) (fluxP : List (Option ℝ))
    (dv : ℝ) (n : ℕ) (nf : List (Option ℝ)) (i : ℕ) :
    (colette_step waveP fluxP dv n nf i).length = nf.length := by
  simp [colette_step]

lemma foldl_colette_step_length (waveP : List ℝ) (fluxP : List (Option ℝ))
    (dv : ℝ) (n : ℕ) :
    ∀ (ws : List ℕ) (init : List (Option ℝ)),
      (ws.foldl (colette_step waveP fluxP dv n) init).length = init.length := by
  intro ws
  induction ws with
  | nil => intro init; rfl
  | cons i t ih =>
    intro init
    rw [List.foldl_cons, ih, colette_step_length]

lemma colette_fluxP_length (wave : List ℝ) (flux : List (Option ℝ)) (n : ℕ) :
    (colette_fluxP wave flux n).length =
      (colette_wave_low wave n).length + flux.length +
        (colette_wave_high wave n).length := by
  simp [colette_fluxP]
  omega

lemma colette_loop_length (wave : List ℝ) (flux : List (Option ℝ)) (dv : ℝ)
    (n : ℕ) :
    (colette_loop wave flux dv n).length = (colette_fluxP wave flux n).length := by
  unfold colette_loop
  exact foldl_colette_step_length _ _ _ _ _ _

lemma colette_output (wave : List ℝ) (flux : List (Option ℝ)) (dv0 : ℝ)
    (hlen : flux.length = wave.length) :
    spec_convol_colette wave flux dv0 =
      ((List.zipWith (fun f v => if f.isSome then v else none)
        (colette_fluxP wave flux (colette_n wave (fwhm_to_sigma dv0)))
        (colette_loop wave flux (fwhm_to_sigma dv0)
          (colette_n wave (fwhm_to_sigma dv0)))).drop
        (colette_wave_low wave (colette_n wave (fwhm_to_sigma dv0))).length).take
        wave.length := by
  simp only [spec_convol_colette]
  unfold colette_mask
  apply maskStrip_middle
  rw [List.length_zipWith, colette_loop_length, colette_fluxP_length, hlen]
  omega

lemma colette_loop_skip (wave : List ℝ) (flux : List (Option ℝ)) (dv : ℝ)
    (n : ℕ) (hsz : (colette_waveP wave n).length < 2 * n) :
    colette_loop wave flux dv n = colette_fluxP wave flux n := by
  unfold colette_loop
  have h0 : ((colette_waveP wave n).length + 1) - n - n = 0 := by omega
  rw [h0]
  rfl

lemma colette_skip_eq_input (wave : List ℝ) (flux : List (Option ℝ)) (dv0 : ℝ)
    (hlen : flux.length = wave.length)
    (hsz : (colette_waveP wave (colette_n wave (fwhm_to_sigma dv0))).length <
      2 * colette_n wave (fwhm_to_sigma dv0)) :
    spec_convol_colette wave flux dv0 = flux := by
  rw [colette_output wave flux dv0 hlen, colette_loop_skip wave flux _ _ hsz,
    zipWith_isSome_self]
  unfold colette_fluxP
  rw [List.append_assoc, List.drop_left' (List.length_replicate _ _),
    List.take_left' hlen]

lemma npRound_eq_zero {x : ℝ} (h0 : 0 ≤ x) (h1 : x < 1 / 2) : npRound x = 0 := by
  unfold npRound
  have hfl : ⌊x⌋ = 0 :=
    Int.floor_eq_zero_iff.mpr (Set.mem_Ico.mpr ⟨h0, by linarith⟩)
  rw [if_neg, round_eq]
  · exact_mod_cast Int.floor_eq_zero_iff.mpr
      (Set.mem_Ico.mpr ⟨by linarith, by linarith⟩)
  · simp only [Int.fract, hfl, Int.cast_zero, sub_zero]
    intro hc
    rw [hc] at h1
    norm_num at h1

lemma npMedian_pair : npMedian [(1 : ℝ), 2] = 3 / 2 := by
  norm_num [npMedian, List.insertionSort, List.orderedInsert]

lemma npMax_pair : npMax [(1 : ℝ), 2] = 2 := by
  norm_num [npMax]

lemma colette_n_12 : colette_n [(1 : ℝ), 2] (fwhm_to_sigma 1) = 10 := by
  simp only [colette_n]
  have harg : npRound (4 * fwhm_to_sigma 1 / (cval * 1e-3) * npMedian [(1 : ℝ), 2] /
      (List.getD [(1 : ℝ), 2] 1 0 - List.getD [(1 : ℝ), 2] 0 0)) = 0 := by
    apply npRound_eq_zero <;>
      · rw [npMedian_pair]
        norm_num [fwhm_to_sigma, cval, List.getD]
  rw [harg]
  norm_num

lemma colette_wave_low_12 : (colette_wave_low [(1 : ℝ), 2] 10).length = 9 := by
  unfold colette_wave_low colette_dwave npArange
  rw [List.length_map, List.length_range]
  norm_num [List.getD]
  rfl

lemma colette_wave_high_12 : (colette_wave_high [(1 : ℝ), 2] 10).length = 8 := by
  unfold colette_wave_high colette_dwave npArange
  rw [npMax_pair, List.length_map, List.length_range]
  norm_num [List.getD]
  rfl

lemma colette_waveP_12 : (colette_waveP [(1 : ℝ), 2] 10).length = 19 := by
  unfold colette_waveP
  rw [List.length_append, List.length_append, colette_wave_low_12,
    colette_wave_high_12]
  rfl

/-! Claim theorems for the fixed-FWHM convolver. -/

/-- C2 counterexample: at a two-sample spectrum the kernel-window guard of
`spec_convol_colette` triggers (the half-window n exceeds the padded size
minus n, so the diagnostic branch is taken), yet the routine returns the
populated unconvolved input flux array, not an empty array. -/
theorem C2_counterexample :
    (colette_waveP [(1 : ℝ), 2] (colette_n [(1 : ℝ), 2] (fwhm_to_sigma 1))).length -
        colette_n [(1 : ℝ), 2] (fwhm_to_sigma 1) <
      colette_n [(1 : ℝ), 2] (fwhm_to_sigma 1) ∧
    spec_convol_colette [(1 : ℝ), 2] [some 5, some 7] 1 = [some 5, some 7] ∧
    spec_convol_colette [(1 : ℝ), 2] [some 5, some 7] 1 ≠ [] := by
  have h2 : spec_convol_colette [(1 : ℝ), 2] [some 5, some 7] 1 =
      [some 5, some 7] := by
    apply colette_skip_eq_input _ _ _ rfl
    rw [colette_n_12, colette_waveP_12]
    norm_num
  refine ⟨?_, h2, ?_⟩
  · rw [colette_n_12, colette_waveP_12]
    omega
  · rw [h2]
    simp

/-- C2 (amended): when the half-window n exceeds the padded array length
minus n, `spec_convol_colette` emits its diagnostic but the windowed loop
is skipped and the routine returns the input flux array unchanged —
populated and unconvolved, not empty. -/
theorem C2_skip_returns_input (wave : List ℝ) (flux : List (Option ℝ))
    (dv0 : ℝ) (hlen : flux.length = wave.length)
    (hsz : (colette_waveP wave (colette_n wave (fwhm_to_sigma dv0))).length <
      2 * colette_n wave (fwhm_to_sigma dv0)) :
    spec_convol_colette wave flux dv0 = flux :=
  colette_skip_eq_input wave flux dv0 hlen hsz

theorem C2_witness :
    ([some (5 : ℝ), some 7] : List (Option ℝ)).length = [(1 : ℝ), 2].length ∧
    (colette_waveP [(1 : ℝ), 2] (colette_n [(1 : ℝ), 2] (fwhm_to_sigma 1))).length <
      2 * colette_n [(1 : ℝ), 2] (fwhm_to_sigma 1) ∧
    spec_convol_colette [(1 : ℝ), 2] [some 5, some 7] 1 = [some 5, some 7] :=
  ⟨rfl, by rw [colette_n_12, colette_waveP_12]; norm_num,
    C2_skip_returns_input [(1 : ℝ), 2] [some 5, some 7] 1 rfl
      (by rw [colette_n_12, colette_waveP_12]; norm_num)⟩

/-- C3 counterexample: at the concrete input the half-window is n = 10, but
the low-side padding has 9 samples and the high-side padding has 8 — not
exactly n zero-flux samples on each end. -/
theorem C3_counterexample :
    colette_n [(1 : ℝ), 2] (fwhm_to_sigma 1) = 10 ∧
    (colette_wave_low [(1 : ℝ), 2]
      (colette_n [(1 : ℝ), 2] (fwhm_to_sigma 1))).length = 9 ∧
    (colette_wave_high [(1 : ℝ), 2]
      (colette_n [(1 : ℝ), 2] (fwhm_to_sigma 1))).length = 8 ∧
    (colette_wave_low [(1 : ℝ), 2]
        (colette_n [(1 : ℝ), 2] (fwhm_to_sigma 1))).length ≠
      colette_n [(1 : ℝ), 2] (fwhm_to_sigma 1) := by
  rw [colette_n_12]
  refine ⟨rfl, colette_wave_low_12, colette_wave_high_12, ?_⟩
  rw [colette_wave_low_12]
  omega

/-- C3 (amended): `spec_convol_colette` pads the arrays with zero-flux
samples and tracks original versus padding with a mask (stripping by the
mask recovers exactly the original samples), but the padding is
asymmetric: n−1 samples at the low end and n−2 at the high end, a
consequence of the half-open `np.arange` endpoints. -/
theorem C3_padding (wave : List ℝ) (flux : List (Option ℝ)) (n : ℕ)
    (hd : colette_dwave wave ≠ 0) (hn : 2 ≤ n)
    (hlen : flux.length = wave.length) :
    (colette_wave_low wave n).length = n - 1 ∧
    (colette_wave_high wave n).length = n - 2 ∧
    colette_fluxP wave flux n =
      List.replicate (n - 1) (some (0 : ℝ)) ++ flux ++
        List.replicate (n - 2) (some (0 : ℝ)) ∧
    maskStrip (colette_fluxP wave flux n) (colette_mask wave n) = flux := by
  have hlow : (colette_wave_low wave n).length = n - 1 := by
    unfold colette_wave_low npArange
    rw [List.length_map, List.length_range]
    have harg : (wave.getD 0 0 - colette_dwave wave -
        (wave.getD 0 0 - colette_dwave wave * n)) / colette_dwave wave =
        ((n - 1 : ℕ) : ℝ) := by
      rw [Nat.cast_sub (by omega)]
      field_simp
      ring
    rw [harg, Int.ceil_natCast]
    simp
  have hhigh : (colette_wave_high wave n).length = n - 2 := by
    unfold colette_wave_high npArange
    rw [List.length_map, List.length_range]
    have harg : (npMax wave + colette_dwave wave * ((n : ℝ) - 1) -
        (npMax wave + colette_dwave wave)) / colette_dwave wave =
        ((n - 2 : ℕ) : ℝ) := by
      rw [Nat.cast_sub (by omega)]
      field_simp
      ring
    rw [harg, Int.ceil_natCast]
    simp
  refine ⟨hlow, hhigh, ?_, ?_⟩
  · unfold colette_fluxP
    rw [hlow, hhigh]
  · unfold colette_mask
    rw [maskStrip_middle _ _ _ _
      (by rw [colette_fluxP_length, hlen])]
    unfold colette_fluxP
    rw [List.append_assoc, List.drop_left' (List.length_replicate _ _),
      List.take_left' hlen]

theorem C3_padding_witness :
    colette_dwave [(1 : ℝ), 2] ≠ 0 ∧ 2 ≤ 10 ∧
    ([some (5 : ℝ), some 7] : List (Option ℝ)).length = [(1 : ℝ), 2].length ∧
    ((colette_wave_low [(1 : ℝ), 2] 10).length = 10 - 1 ∧
     (colette_wave_high [(1 : ℝ), 2] 10).length = 10 - 2 ∧
     colette_fluxP [(1 : ℝ), 2] [some 5, some 7] 10 =
       List.replicate (10 - 1) (some (0 : ℝ)) ++ [some 5, some 7] ++
         List.replicate (10 - 2) (some (0 : ℝ)) ∧
     maskStrip (colette_fluxP [(1 : ℝ), 2] [some 5, some 7] 10)
       (colette_mask [(1 : ℝ), 2] 10) = [some 5, some 7]) :=
  ⟨by unfold colette_dwave; norm_num [List.getD], by omega, rfl,
    C3_padding [(1 : ℝ), 2] [some 5, some 7] 10
      (by unfold colette_dwave; norm_num [List.getD]) (by omega) rfl⟩

/-- C4: every position at which the input flux is non-finite is non-finite
in the array returned by `spec_convol_colette`, at the same position. -/
theorem C4_nan_preserved (wave : List ℝ) (flux : List (Option ℝ)) (dv0 : ℝ)
    (hlen : flux.length = wave.length) (i : ℕ) (hi : i < flux.length)
    (hnan : flux.getD i (some 0) = none) :
    (spec_convol_colette wave flux dv0).getD i (some 0) = none := by
  rw [colette_output wave flux dv0 hlen]
  set n := colette_n wave (fwhm_to_sigma dv0) with hn
  set nlow := (colette_wave_low wave n).length with hnlow
  have hlooplen : nlow + i < (colette_loop wave flux (fwhm_to_sigma dv0) n).length := by
    rw [colette_loop_length, colette_fluxP_length, ← hnlow]
    omega
  have hfluxP : (colette_fluxP wave flux n)[nlow + i]? = some none := by
    unfold colette_fluxP
    rw [List.getElem?_append_left
      (by rw [List.length_append, List.length_replicate, ← hnlow]; omega)]
    rw [List.getElem?_append_right (by rw [List.length_replicate, ← hnlow]; omega)]
    rw [List.length_replicate, ← hnlow, Nat.add_sub_cancel_left]
    rw [List.getElem?_eq_getElem hi]
    rw [List.getD_eq_getElem _ _ hi] at hnan
    rw [hnan]
  obtain ⟨v, hv⟩ : ∃ v, (colette_loop wave flux (fwhm_to_sigma dv0) n)[nlow + i]? = some v :=
    ⟨_, List.getElem?_eq_getElem hlooplen⟩
  rw [List.getD_eq_getElem?_getD]
  rw [List.getElem?_take_of_lt (by omega : i < wave.length)]
  rw [List.getElem?_drop, List.getElem?_zipWith', hfluxP, hv]
  simp

theorem C4_witness :
    ([some (5 : ℝ), none, some 7] : List (Option ℝ)).length =
      [(1 : ℝ), 2, 3].length ∧
    1 < ([some (5 : ℝ), none, some 7] : List (Option ℝ)).length ∧
    ([some (5 : ℝ), none, some 7] : List (Option ℝ)).getD 1 (some 0) = none ∧
    (spec_convol_colette [(1 : ℝ), 2, 3] [some 5, none, some 7] 1).getD 1
      (some 0) = none :=
  ⟨rfl, by decide, rfl,
    C4_nan_preserved [(1 : ℝ), 2, 3] [some 5, none, some 7] 1 rfl 1
      (by decide) rfl⟩

/-- C5: both convolvers return an array whose length equals the length of
the input wavelength array. -/
theorem C5_output_length (wave flux : List ℝ) (fluxO : List (Option ℝ))
    (dv : ℝ) (hlen : fluxO.length = wave.length) :
    (spec_convol wave flux dv).length = wave.length ∧
    (spec_convol_colette wave fluxO dv).length = wave.length := by
  constructor
  · simp [spec_convol]
  · rw [colette_output wave fluxO dv hlen]
    rw [List.length_take, List.length_drop, List.length_zipWith,
      colette_loop_length, colette_fluxP_length, hlen]
    omega

theorem C5_witness :
    ([some (5 : ℝ), some 7] : List (Option ℝ)).length = [(1 : ℝ), 2].length ∧
    (spec_convol [(1 : ℝ), 2] [(5 : ℝ), 7] 3).length = [(1 : ℝ), 2].length ∧
    (spec_convol_colette [(1 : ℝ), 2] [some 5, some 7] 3).length =
      [(1 : ℝ), 2].length :=
  ⟨rfl, (C5_output_length [(1 : ℝ), 2] [(5 : ℝ), 7] [some 5, some 7] 3 rfl).1,
    (C5_output_length [(1 : ℝ), 2] [(5 : ℝ), 7] [some 5, some 7] 3 rfl).2⟩

lemma foldl_min_div (m : ℝ) (hm : 0 ≤ m) :
    ∀ (xs : List ℝ) (x : ℝ),
      (xs.map (fun f => f / m)).foldl min (x / m) = xs.foldl min x / m := by
  intro xs
  induction xs with
  | nil => intro x; rfl
  | cons y ys ih =>
    intro x
    rw [List.map_cons, List.foldl_cons, List.foldl_cons,
      min_div_div_right hm, ih]

lemma npMin_map_div (l : List ℝ) (m : ℝ) (hm : 0 ≤ m) (hne : l ≠ []) :
    npMin (l.map (fun f => f / m)) = npMin l / m := by
  cases l with
  | nil => exact absurd rfl hne
  | cons x xs => exact foldl_min_div m hm xs x

/-- C6: the samples-per-FWHM scalar of `spec_convol` (used both for the
resampled grid step and for the Gaussian kernel sigma) is at least 2, and
equals the maximum of 2 and the minimum FWHM divided by the minimum native
wavelength spacing. -/
theorem C6_fwhm_s (wave : List ℝ) (dv : ℝ) (hw : wave ≠ [])
    (hdw : 0 < spec_dw_min wave) :
    2 ≤ spec_fwhm_s wave dv ∧
    spec_fwhm_s wave dv =
      max 2 (npMin (spec_fwhm wave dv) / spec_dw_min wave) := by
  refine ⟨le_max_left 2 _, ?_⟩
  unfold spec_fwhm_s
  rw [npMin_map_div _ _ hdw.le (by simpa [spec_fwhm] using hw)]

theorem C6_witness :
    ([(1 : ℝ), 2] ≠ []) ∧ 0 < spec_dw_min [(1 : ℝ), 2] ∧
    (2 ≤ spec_fwhm_s [(1 : ℝ), 2] 1 ∧
      spec_fwhm_s [(1 : ℝ), 2] 1 =
        max 2 (npMin (spec_fwhm [(1 : ℝ), 2] 1) / spec_dw_min [(1 : ℝ), 2])) := by
  have hdw : (0 : ℝ) < spec_dw_min [(1 : ℝ), 2] := by
    show (0 : ℝ) < min |(1 : ℝ) - 2| |(2 : ℝ) - 1|
    apply lt_min <;> (rw [abs_pos]; norm_num)
  exact ⟨by simp, hdw, C6_fwhm_s [(1 : ℝ), 2] 1 (by simp) hdw⟩

/-! Lemmas and claim theorem for the shared wavelength grid. -/

lemma cval_pos : (0 : ℝ) < cval := by norm_num [cval]

lemma nbins_arg_pos {wmin wmax deltav : ℝ} (h1 : 0 < wmin) (h2 : wmin < wmax)
    (h3 : 0 < deltav) (h4 : deltav ≤ cval) :
    (3 : ℝ) < 3 * wmax / (wmax - wmin) * (cval / deltav) := by
  have hspan : (0 : ℝ) < wmax - wmin := by linarith
  have ha : 1 < wmax / (wmax - wmin) := by
    rw [lt_div_iff₀ hspan]
    linarith
  have hb : 1 ≤ cval / deltav := by
    rw [le_div_iff₀ h3]
    linarith
  have hrw : 3 * wmax / (wmax - wmin) * (cval / deltav) =
      3 * (wmax / (wmax - wmin)) * (cval / deltav) := by ring
  rw [hrw]
  have h5 : 3 * (wmax / (wmax - wmin)) ≤
      3 * (wmax / (wmax - wmin)) * (cval / deltav) := by
    nth_rewrite 1 [← mul_one (3 * (wmax / (wmax - wmin)))]
    exact mul_le_mul_of_nonneg_left hb (by linarith)
  linarith

lemma nbins_ge_three {wmin wmax deltav : ℝ} (h1 : 0 < wmin) (h2 : wmin < wmax)
    (h3 : 0 < deltav) (h4 : deltav ≤ cval) :
    3 ≤ nbins wmin wmax deltav := by
  have hX := nbins_arg_pos h1 h2 h3 h4
  have hfl : 3 ≤ ⌊3 * wmax / (wmax - wmin) * (cval / deltav)⌋ :=
    Int.le_floor.mpr (by push_cast; linarith)
  unfold nbins pyInt
  rw [if_pos (by linarith)]
  omega

/-- C7: the shared output grid has floor-of-the-formula many points, is
logarithmically spaced, strictly increasing, and spans exactly
[wmin, wmax]. -/
theorem C7_grid (wmin wmax deltav : ℝ) (h1 : 0 < wmin) (h2 : wmin < wmax)
    (h3 : 0 < deltav) (h4 : deltav ≤ cval) :
    nbins wmin wmax deltav =
      (⌊3 * wmax / (wmax - wmin) * (cval / deltav)⌋).toNat ∧
    (totalwave wmin wmax deltav).length = nbins wmin wmax deltav ∧
    (totalwave wmin wmax deltav).headD 0 = wmin ∧
    (totalwave wmin wmax deltav).getLastD 0 = wmax ∧
    List.Chain' (· < ·) (totalwave wmin wmax deltav) := by
  have hnb := nbins_ge_three h1 h2 h3 h4
  have hden : ((nbins wmin wmax deltav : ℝ) - 1) ≠ 0 := by
    have : (3 : ℝ) ≤ (nbins wmin wmax deltav : ℝ) := by exact_mod_cast hnb
    intro hc
    rw [sub_eq_zero] at hc
    rw [hc] at this
    norm_num at this
  have hDelta : 0 < (Real.logb 10 wmax - Real.logb 10 wmin) /
      ((nbins wmin wmax deltav : ℝ) - 1) := by
    apply div_pos
    · have := Real.logb_lt_logb (b := 10) (by norm_num) h1 h2
      linarith
    · have : (3 : ℝ) ≤ (nbins wmin wmax deltav : ℝ) := by exact_mod_cast hnb
      linarith
  refine ⟨?_, ?_, ?_, ?_, ?_⟩
  · unfold nbins pyInt
    rw [if_pos (by linarith [nbins_arg_pos h1 h2 h3 h4])]
  · unfold totalwave
    rw [List.length_map, List.length_range]
  · unfold totalwave
    rw [headD_range_map _ _ _ (by omega)]
    norm_num
    exact Real.rpow_logb (by norm_num) (by norm_num) h1
  · unfold totalwave
    rw [getLastD_range_map _ _ _ (by omega)]
    have hcast : ((nbins wmin wmax deltav - 1 : ℕ) : ℝ) =
        (nbins wmin wmax deltav : ℝ) - 1 := by
      push_cast [Nat.cast_sub (by omega : 1 ≤ nbins wmin wmax deltav)]
      ring
    rw [hcast]
    have hexp : Real.logb 10 wmin + ((nbins wmin wmax deltav : ℝ) - 1) *
        ((Real.logb 10 wmax - Real.logb 10 wmin) /
          ((nbins wmin wmax deltav : ℝ) - 1)) = Real.logb 10 wmax := by
      field_simp
    rw [hexp]
    exact Real.rpow_logb (by norm_num) (by norm_num) (by linarith)
  · unfold totalwave
    apply chain'_map_range
    intro k
    rw [Real.rpow_lt_rpow_left_iff (by norm_num : (1 : ℝ) < 10)]
    have hk : (k : ℝ) < (k : ℝ) + 1 := by linarith
    have := mul_lt_mul_of_pos_right hk hDelta
    push_cast
    linarith

theorem C7_witness :
    (0 : ℝ) < 1 ∧ (1 : ℝ) < 2 ∧ (0 : ℝ) < cval ∧ cval ≤ cval ∧
    (nbins 1 2 cval = (⌊3 * 2 / (2 - 1 : ℝ) * (cval / cval)⌋).toNat ∧
     (totalwave 1 2 cval).length = nbins 1 2 cval ∧
     (totalwave 1 2 cval).headD 0 = 1 ∧
     (totalwave 1 2 cval).getLastD 0 = 2 ∧
     List.Chain' (· < ·) (totalwave 1 2 cval)) :=
  ⟨by norm_num, by norm_num, cval_pos, le_refl cval,
    C7_grid 1 2 cval (by norm_num) (by norm_num) cval_pos (le_refl cval)⟩

/-! Lemmas and claim theorem for the optical-depth accumulation. -/

lemma except_bind_ok {α β : Type} (a : α) (g : α → Except String β) :
    (Except.ok a >>= g : Except String β) = g a := rfl

lemma except_bind_error {α β : Type} (e : String) (g : α → Except String β) :
    ((Except.error e : Except String α) >>= g) = Except.error e := rfl

lemma npInterpP_nonneg (x : ℝ) :
    ∀ ps : List (ℝ × ℝ), List.Chain' (fun p q => p.1 ≤ q.1) ps →
      (∀ p ∈ ps, 0 ≤ p.2) → 0 ≤ npInterpP x ps := by
  intro ps
  induction ps with
  | nil => intro _ _; simp [npInterpP]
  | cons p rest ih =>
    intro hc hy
    obtain ⟨x0, y0⟩ := p
    cases rest with
    | nil => simpa [npInterpP] using hy (x0, y0) (by simp)
    | cons q rest2 =>
      obtain ⟨x1, y1⟩ := q
      have hy0 : 0 ≤ y0 := hy (x0, y0) (by simp)
      have hy1 : 0 ≤ y1 := hy (x1, y1) (by simp)
      have hx01 : x0 ≤ x1 := (List.chain'_cons.mp hc).1
      show 0 ≤ if x ≤ x0 then y0
        else if x ≤ x1 then y0 + (y1 - y0) * (x - x0) / (x1 - x0)
        else npInterpP x ((x1, y1) :: rest2)
      split_ifs with hle1 hle2
      · exact hy0
      · have hx0x : x0 < x := lt_of_not_le hle1
        have hlt : x0 < x1 := lt_of_lt_of_le hx0x hle2
        have ht0 : 0 ≤ (x - x0) / (x1 - x0) :=
          div_nonneg (by linarith) (by linarith)
        have ht1 : (x - x0) / (x1 - x0) ≤ 1 := by
          rw [div_le_one (by linarith)]
          linarith
        have hrw : y0 + (y1 - y0) * ((x - x0) / (x1 - x0)) =
            y0 * (1 - (x - x0) / (x1 - x0)) + y1 * ((x - x0) / (x1 - x0)) := by
          ring
        rw [mul_div_assoc, hrw]
        exact add_nonneg (mul_nonneg hy0 (by linarith)) (mul_nonneg hy1 ht0)
      · exact ih ((List.chain'_cons.mp hc).2)
          (fun p hp => hy p (List.mem_cons_of_mem _ hp))

lemma tau0_nonneg {n_col temp deltav q : ℝ} {l : HitranRow}
    (hn : 0 < n_col) (ht : 0 < temp) (hv : 0 < deltav) (hq : 0 < q)
    (ha : 0 ≤ l.a) (hg : 0 ≤ l.gp) (hw : 0 < l.wn)
    (he : l.elower * 1e2 * hval * cval / kBval ≤ l.eup_k) :
    0 ≤ make_spec_tau0 n_col temp deltav q l := by
  simp only [make_spec_tau0]
  have hA : 0 ≤ l.a * l.gp * n_col / (q * 8 * Real.pi * (l.wn * 1e2) ^ 3) := by
    positivity
  have he2 : l.elower * 1e2 * hval * cval / kBval / temp ≤ l.eup_k / temp :=
    (div_le_div_iff_of_pos_right ht).mpr he
  have hE : Real.exp (-(l.eup_k / temp)) ≤
      Real.exp (-(l.elower * 1e2 * hval * cval / kBval / temp)) :=
    Real.exp_le_exp.mpr (by linarith)
  have hP : 0 ≤ 1 / (deltav * Real.sqrt (2 * Real.pi)) := by positivity
  exact mul_nonneg (mul_nonneg hA (by linarith)) hP

lemma line_zip_eq (n_col temp deltav q : ℝ) (l : HitranRow) :
    (lineWave deltav l).zip (lineTau n_col temp deltav q l) =
      (List.range 31).map (fun k : ℕ =>
        (1e6 / (l.wn * 1e2) * (1 + deltav / 3 * ((k : ℝ) - 15) / cval),
         make_spec_tau0 n_col temp deltav q l *
           Real.exp (-(deltav / 3 * ((k : ℝ) - 15)) ^ 2 / (2 * deltav ^ 2)))) := by
  unfold lineWave lineTau velGrid
  rw [List.map_map, List.map_map, List.zip_map']
  rfl

lemma line_interp_nonneg {n_col temp deltav q : ℝ} {l : HitranRow} (x : ℝ)
    (hn : 0 < n_col) (ht : 0 < temp) (hv : 0 < deltav) (hq : 0 < q)
    (ha : 0 ≤ l.a) (hg : 0 ≤ l.gp) (hw : 0 < l.wn)
    (he : l.elower * 1e2 * hval * cval / kBval ≤ l.eup_k) :
    0 ≤ npInterp x (lineWave deltav l) (lineTau n_col temp deltav q l) := by
  unfold npInterp
  rw [line_zip_eq]
  apply npInterpP_nonneg
  · apply chain'_map_range
    intro k
    have hA : 0 ≤ (1e6 : ℝ) / (l.wn * 1e2) := by positivity
    apply mul_le_mul_of_nonneg_left _ hA
    have hstep : deltav / 3 * ((k : ℝ) - 15) ≤
        deltav / 3 * (((k + 1 : ℕ) : ℝ) - 15) := by
      apply mul_le_mul_of_nonneg_left _ (by linarith)
      push_cast
      linarith
    have := (div_le_div_iff_of_pos_right cval_pos).mpr hstep
    linarith
  · intro p hp
    obtain ⟨k, hk, rfl⟩ := List.mem_map.mp hp
    exact mul_nonneg (tau0_nonneg hn ht hv hq ha hg hw he) (Real.exp_nonneg _)

lemma getD_nonneg {l : List ℝ} (h : ∀ x ∈ l, 0 ≤ x) (j : ℕ) :
    0 ≤ l.getD j 0 := by
  rcases lt_or_le j l.length with hj | hj
  · rw [List.getD_eq_getElem _ _ hj]
    exact h _ (List.getElem_mem hj)
  · rw [List.getD_eq_default _ _ hj]

lemma forall_mem_set_nonneg {l : List ℝ} {v : ℝ} (h : ∀ x ∈ l, 0 ≤ x)
    (hv : 0 ≤ v) (j : ℕ) : ∀ x ∈ l.set j v, 0 ≤ x := by
  intro x hx
  rcases List.mem_or_eq_of_mem_set hx with h1 | h1
  · exact h x h1
  · rw [h1]
    exact hv

lemma foldl_tau_add_nonneg (g : ℕ → ℝ) (hg : ∀ j, 0 ≤ g j) :
    ∀ (ws : List ℕ) (tt : List ℝ), (∀ x ∈ tt, 0 ≤ x) →
      ∀ x ∈ ws.foldl (fun tt j => tt.set j (tt.getD j 0 + g j)) tt, 0 ≤ x := by
  intro ws
  induction ws with
  | nil => intro tt h; exact h
  | cons j rest ih =>
    intro tt h
    rw [List.foldl_cons]
    exact ih _ (forall_mem_set_nonneg h (add_nonneg (getD_nonneg h j) (hg j)) j)

lemma foldlM_except_inv {α β : Type} {P : β → Prop}
    (f : β → α → Except String β) :
    ∀ (l : List α),
      (∀ b a, a ∈ l → P b → ∀ b', f b a = Except.ok b' → P b') →
      ∀ b : β, P b → ∀ b', l.foldlM f b = Except.ok b' → P b' := by
  intro l
  induction l with
  | nil =>
    intro _ b hb b' h
    rw [List.foldlM_nil] at h
    cases h
    exact hb
  | cons a rest ih =>
    intro hf b hb b' h
    rw [List.foldlM_cons] at h
    cases hfa : f b a with
    | error e =>
      rw [hfa, except_bind_error] at h
      cases h
    | ok b1 =>
      rw [hfa, except_bind_ok] at h
      exact ih (fun b a ha => hf b a (List.mem_cons_of_mem _ ha)) b1
        (hf b a (List.mem_cons_self _ _) hb b1 hfa) b' h

lemma line_step_preserves {tw idx : List ℝ} {deltav n_col temp q area d_pc : ℝ}
    (hn : 0 < n_col) (ht : 0 < temp) (hv : 0 < deltav) (hq : 0 < q)
    (acc : List ℝ × List ℝ) (l : HitranRow)
    (ha : 0 ≤ l.a) (hg : 0 ≤ l.gp) (hw : 0 < l.wn)
    (he : l.elower * 1e2 * hval * cval / kBval ≤ l.eup_k)
    (hP : ∀ x ∈ acc.1, 0 ≤ x) (b' : List ℝ × List ℝ)
    (hok : make_spec_line_step tw idx deltav n_col temp q area d_pc acc l =
      Except.ok b') :
    ∀ x ∈ b'.1, 0 ≤ x := by
  simp only [make_spec_line_step] at hok
  cases h1 : interp1dEval tw idx (npMin (lineWave deltav l)) with
  | error e =>
    rw [h1, except_bind_error] at hok
    cases hok
  | ok mi =>
    rw [h1, except_bind_ok] at hok
    cases h2 : interp1dEval tw idx (npMax (lineWave deltav l)) with
    | error e =>
      rw [h2, except_bind_error] at hok
      cases hok
    | ok ma =>
      rw [h2, except_bind_ok] at hok
      split at hok
      · cases hok
        exact foldl_tau_add_nonneg _
          (fun j => line_interp_nonneg _ hn ht hv hq ha hg hw he) _ _ hP
      · cases hok
        exact hP

/-- C8: with positive column density, temperature, area, distance, local
velocity dispersion and partition function, and physically valid line data
(non-negative Einstein-A and degeneracy, positive wavenumber, upper-state
energy at least the lower-state energy), every entry of the accumulated
total optical depth returned by `make_spec_accumulate` is non-negative. -/
theorem C8_tau_nonneg (wmin wmax deltav n_col temp q area d_pc : ℝ)
    (lines : List HitranRow)
    (hn : 0 < n_col) (ht : 0 < temp) (_hA : 0 < area) (_hD : 0 < d_pc)
    (hv : 0 < deltav) (hq : 0 < q)
    (hl : ∀ l ∈ lines, 0 ≤ l.a ∧ 0 ≤ l.gp ∧ 0 < l.wn ∧
      l.elower * 1e2 * hval * cval / kBval ≤ l.eup_k) :
    ∀ out, make_spec_accumulate wmin wmax deltav n_col temp q area d_pc
      lines = Except.ok out → ∀ x ∈ out.1, 0 ≤ x := by
  intro out hok
  simp only [make_spec_accumulate] at hok
  refine foldlM_except_inv (P := fun acc => ∀ x ∈ acc.1, 0 ≤ x) _ lines
    ?_ _ ?_ out hok
  · intro b a ha hP b' hstep
    obtain ⟨h1, h2, h3, h4⟩ := hl a ha
    exact line_step_preserves hn ht hv hq b a h1 h2 h3 h4 hP b' hstep
  · intro x hx
    rw [List.eq_of_mem_replicate hx]

/-! Lemmas and claim theorem for the out-of-grid line window. -/

/-- Transition whose centre wavelength 1.02 μm lies inside [1, 2] μm but
whose five-sigma window (with `deltav = c/100`) reaches 0.969 μm, below
the grid. -/
def c10row : HitranRow := ⟨1000000 / 102, 1, 0, 1, 1, "1"⟩

lemma lineWave_chain (deltav : ℝ) (l : HitranRow) (hv : 0 ≤ deltav)
    (hw : 0 < l.wn) : List.Chain' (· ≤ ·) (lineWave deltav l) := by
  unfold lineWave velGrid
  rw [List.map_map]
  apply chain'_map_range
  intro k
  simp only [Function.comp]
  have hA : 0 ≤ (1e6 : ℝ) / (l.wn * 1e2) := by positivity
  apply mul_le_mul_of_nonneg_left _ hA
  have hstep : deltav / 3 * ((k : ℝ) - 15) ≤
      deltav / 3 * (((k + 1 : ℕ) : ℝ) - 15) := by
    apply mul_le_mul_of_nonneg_left _ (by linarith)
    push_cast
    linarith
  have := (div_le_div_iff_of_pos_right cval_pos).mpr hstep
  linarith

lemma nbins_c10 : nbins 1 2 (cval / 100) = 600 := by
  unfold nbins pyInt
  have hc : cval ≠ 0 := cval_pos.ne'
  have harg : 3 * 2 / (2 - 1 : ℝ) * (cval / (cval / 100)) = 600 := by
    field_simp
    norm_num
  rw [harg, if_pos (by norm_num)]
  norm_num
  rfl

lemma totalwave_c10_head : (totalwave 1 2 (cval / 100)).headD 0 = 1 := by
  unfold totalwave
  rw [headD_range_map _ _ _ (by rw [nbins_c10]; omega)]
  simp [Real.logb_one]

lemma c10_minw_lt : npMin (lineWave (cval / 100) c10row) < 1 := by
  rw [npMin_of_chain _ (by unfold lineWave velGrid; simp)
    (lineWave_chain _ _ (by norm_num [cval]) (by norm_num [c10row]))]
  unfold lineWave velGrid
  rw [List.map_map, headD_range_map _ _ _ (by omega)]
  simp only [Function.comp]
  norm_num [c10row, cval]

lemma foldl_max_of_chain :
    ∀ (xs : List ℝ) (x : ℝ), List.Chain' (· ≤ ·) (x :: xs) →
      xs.foldl max x = (x :: xs).getLastD 0
  | [], _, _ => rfl
  | y :: ys, x, h => by
    have h1 : x ≤ y := (List.chain'_cons.mp h).1
    have h2 : List.Chain' (· ≤ ·) (y :: ys) := (List.chain'_cons.mp h).2
    calc (y :: ys).foldl max x = ys.foldl max (max x y) := rfl
    _ = ys.foldl max y := by rw [max_eq_right h1]
    _ = (y :: ys).getLastD 0 := foldl_max_of_chain ys y h2
    _ = (x :: y :: ys).getLastD 0 := by
        rw [List.getLastD_cons, List.getLastD_cons, List.getLastD_cons]

lemma npMax_of_chain (l : List ℝ) (hne : l ≠ []) (hc : List.Chain' (· ≤ ·) l) :
    npMax l = l.getLastD 0 := by
  cases l with
  | nil => exact absurd rfl hne
  | cons x xs => exact foldl_max_of_chain xs x hc

lemma totalwave_c10_last : (totalwave 1 2 (cval / 100)).getLastD 0 = 2 := by
  unfold totalwave
  rw [nbins_c10]
  rw [getLastD_range_map _ _ _ (by omega)]
  have hexp : Real.logb 10 1 + ((600 - 1 : ℕ) : ℝ) *
      ((Real.logb 10 2 - Real.logb 10 1) / (((600 : ℕ) : ℝ) - 1)) =
      Real.logb 10 2 := by
    rw [Real.logb_one]
    norm_num
    rw [← mul_div_assoc]
    rw [mul_div_cancel_left₀ _ (by norm_num : (599 : ℝ) ≠ 0)]
  rw [hexp]
  exact Real.rpow_logb (by norm_num) (by norm_num) (by norm_num)

/-! A transition whose five-sigma window lies inside the grid, for the
non-vacuous C8 witness. -/

/-- Transition whose centre wavelength 1.5 μm lies inside [1, 2] μm and
whose five-sigma window (with `deltav = c/100`) spans [1.425, 1.575] μm,
entirely inside the grid, so the accumulation succeeds on it. -/
def c8row : HitranRow := ⟨20000 / 3, 1, 0, 1, 1, "1"⟩

lemma c8_minw_eq : npMin (lineWave (cval / 100) c8row) = 1.425 := by
  rw [npMin_of_chain _ (by unfold lineWave velGrid; simp)
    (lineWave_chain _ _ (by norm_num [cval]) (by norm_num [c8row]))]
  unfold lineWave velGrid
  rw [List.map_map, headD_range_map _ _ _ (by omega)]
  simp only [Function.comp]
  norm_num [c8row, cval]

lemma c8_maxw_eq : npMax (lineWave (cval / 100) c8row) = 1.575 := by
  rw [npMax_of_chain _ (by unfold lineWave velGrid; simp)
    (lineWave_chain _ _ (by norm_num [cval]) (by norm_num [c8row]))]
  unfold lineWave velGrid
  rw [List.map_map, getLastD_range_map _ _ _ (by omega)]
  simp only [Function.comp]
  norm_num [c8row, cval]

lemma c8_interp_min_ok (idx : List ℝ) :
    interp1dEval (totalwave 1 2 (cval / 100)) idx
      (npMin (lineWave (cval / 100) c8row)) =
      Except.ok (npInterp (npMin (lineWave (cval / 100) c8row))
        (totalwave 1 2 (cval / 100)) idx) := by
  unfold interp1dEval
  rw [if_neg]
  rw [totalwave_c10_head, totalwave_c10_last, c8_minw_eq]
  norm_num

lemma c8_interp_max_ok (idx : List ℝ) :
    interp1dEval (totalwave 1 2 (cval / 100)) idx
      (npMax (lineWave (cval / 100) c8row)) =
      Except.ok (npInterp (npMax (lineWave (cval / 100) c8row))
        (totalwave 1 2 (cval / 100)) idx) := by
  unfold interp1dEval
  rw [if_neg]
  rw [totalwave_c10_head, totalwave_c10_last, c8_maxw_eq]
  norm_num

lemma c8_accumulate_ok :
    ∃ out, make_spec_accumulate 1 2 (cval / 100) 1 1 1 1 1 [c8row] =
      Except.ok out := by
  simp only [make_spec_accumulate]
  have hstep : ∃ out, make_spec_line_step (totalwave 1 2 (cval / 100))
      ((List.range (totalwave 1 2 (cval / 100)).length).map
        (fun k : ℕ => (k : ℝ))) (cval / 100) 1 1 1 1 1
      (List.replicate (totalwave 1 2 (cval / 100)).length 0, []) c8row =
      Except.ok out := by
    simp only [make_spec_line_step]
    rw [c8_interp_min_ok, except_bind_ok, c8_interp_max_ok, except_bind_ok]
    split
    · exact ⟨_, rfl⟩
    · exact ⟨_, rfl⟩
  obtain ⟨out, ho⟩ := hstep
  refine ⟨out, ?_⟩
  rw [List.foldlM_cons, ho, except_bind_ok, List.foldlM_nil]
  rfl

lemma c8row_valid : ∀ l ∈ [c8row], 0 ≤ l.a ∧ 0 ≤ l.gp ∧ 0 < l.wn ∧
    l.elower * 1e2 * hval * cval / kBval ≤ l.eup_k := by
  intro l hl
  rw [List.mem_singleton] at hl
  rw [hl]
  refine ⟨by norm_num [c8row], by norm_num [c8row], by norm_num [c8row], ?_⟩
  show c8row.elower * 1e2 * hval * cval / kBval ≤ c8row.eup_k
  norm_num [c8row]

theorem C8_witness :
    ((0 : ℝ) < 1 ∧ (0 : ℝ) < cval / 100 ∧
      (∀ l ∈ [c8row], 0 ≤ l.a ∧ 0 ≤ l.gp ∧ 0 < l.wn ∧
        l.elower * 1e2 * hval * cval / kBval ≤ l.eup_k)) ∧
    ∃ out, make_spec_accumulate 1 2 (cval / 100) 1 1 1 1 1 [c8row] =
      Except.ok out ∧ ∀ x ∈ out.1, 0 ≤ x := by
  obtain ⟨out, ho⟩ := c8_accumulate_ok
  refine ⟨⟨by norm_num, by norm_num [cval], c8row_valid⟩, out, ho, ?_⟩
  exact C8_tau_nonneg 1 2 (cval / 100) 1 1 1 1 1 [c8row] (by norm_num)
    (by norm_num) (by norm_num) (by norm_num) (by norm_num [cval])
    (by norm_num) c8row_valid out ho

/-- C10: a transition whose centre lies inside [wmin, wmax] but whose
five-sigma window extends below wmin makes the inverse grid-index
interpolation raise, so the whole accumulation returns an error instead of
clipping the window. -/
theorem C10_window_error :
    (1 : ℝ) ≤ 1e6 / (c10row.wn * 1e2) ∧ 1e6 / (c10row.wn * 1e2) ≤ 2 ∧
    npMin (lineWave (cval / 100) c10row) < (totalwave 1 2 (cval / 100)).headD 0 ∧
    make_spec_accumulate 1 2 (cval / 100) 1 1 1 1 1 [c10row] =
      Except.error "ValueError: x_new out of range" := by
  have hmin : npMin (lineWave (cval / 100) c10row) < 1 := c10_minw_lt
  have herr : ∀ (idx : List ℝ) (acc : List ℝ × List ℝ),
      make_spec_line_step (totalwave 1 2 (cval / 100)) idx (cval / 100)
        1 1 1 1 1 acc c10row =
        Except.error "ValueError: x_new out of range" := by
    intro idx acc
    simp only [make_spec_line_step]
    have h1 : interp1dEval (totalwave 1 2 (cval / 100)) idx
        (npMin (lineWave (cval / 100) c10row)) =
        Except.error "ValueError: x_new out of range" := by
      unfold interp1dEval
      rw [if_pos (Or.inl (by rw [totalwave_c10_head]; exact hmin))]
    rw [h1, except_bind_error]
  refine ⟨by norm_num [c10row], by norm_num [c10row],
    by rw [totalwave_c10_head]; exact hmin, ?_⟩
  simp only [make_spec_accumulate]
  rw [List.foldlM_cons, herr, except_bind_error]

/-! Claim theorems for the vup selection and the rotation diagram. -/

/-- Row with upper vibrational-state label "1". -/
def vupRow1 : HitranRow := ⟨1, 1, 0, 1, 1, "1"⟩

/-- Row with upper vibrational-state label "2". -/
def vupRow2 : HitranRow := ⟨2, 1, 0, 1, 2, "2"⟩

/-- C1 (code evaluation): requesting vup = 2 on a line list with numeric
labels "1" and "2" keeps the label-"1" row and drops the label-"2" row:
the selection compares every parsed label against the literal 1 instead of
the requested vup value. -/
theorem C1_code_eval :
    pyParseInt vupRow1.Vp = some 1 ∧ pyParseInt vupRow2.Vp = some 2 ∧
    make_spec_selectVup (some 2) [vupRow1, vupRow2] = Except.ok [vupRow1] :=
  ⟨rfl, rfl, rfl⟩

/-- C9: the rotation diagram has exactly one (x, y) pair per input line,
with x the line's tabulated upper-state energy and y the natural log of
the line flux over (wavenumber times statistical weight times Einstein-A);
the transform is total, so zero denominators are not trapped. -/
theorem C9_rotation (lineparams : List LineParamRow) :
    (make_rotation_diagram lineparams).length = lineparams.length ∧
    ∀ i : Fin lineparams.length,
      (make_rotation_diagram lineparams).getD i (0, 0) =
        ((lineparams.get i).eup_k,
          Real.log ((lineparams.get i).lineflux /
            ((lineparams.get i).wn * (lineparams.get i).gp *
              (lineparams.get i).a))) := by
  constructor
  · simp [make_rotation_diagram]
  · intro i
    unfold make_rotation_diagram
    rw [List.getD_eq_getElem _ _ (by simp)]
    rw [List.getElem_map]
    simp

end

end Slabspec
